import Mathlib

/-!
Shallow embedding of the signal-extraction scripts of this repository
(`scripts/spacy_extractor.py` and `scripts/nltk_extractor.py`).

Python strings are modelled as `List Char`.  The modelled fragment is the
ASCII one: `str.lower` is modelled by `Char.toLower` and the regex class
`\s` by the ASCII whitespace characters, which covers every string the
scripts and the claims manipulate.
-/

namespace SignalExtraction

/-- Python substring test `needle in hay` on strings (`str.__contains__`):
true iff `needle` occurs contiguously in `hay`; the empty string occurs in
every string. -/
def strIn (needle hay : List Char) : Bool :=
  needle.isPrefixOf hay ||
    match hay with
    | [] => false
    | _ :: t => strIn needle t

/-- Python `hay.index(needle)` on strings: the least index at which
`needle` occurs in `hay`, `none` when it does not occur (Python raises
`ValueError` there). -/
def strIdx (needle hay : List Char) : Option Nat :=
  if needle.isPrefixOf hay then some 0
  else
    match hay with
    | [] => none
    | _ :: t => (strIdx needle t).map (· + 1)

/-- Python `hay.index(needle)` at a call site that is guarded by a
preceding `needle in hay` check, so the `ValueError` case is unreachable
and the default value is never produced. -/
def pyIndex (needle hay : List Char) : Nat :=
  (strIdx needle hay).getD 0

/-- Python `str.lower()` (ASCII fragment). -/
def lower (s : List Char) : List Char :=
  s.map Char.toLower

/-- Characters matched by the regex class `\s` (ASCII fragment:
space, tab, newline, carriage return, vertical tab, form feed). -/
def isSpaceCh (c : Char) : Bool :=
  c = ' ' || c = '\t' || c = '\n' || c = '\r' || c = Char.ofNat 11 || c = Char.ofNat 12

/-- Attempted match of the regex `\s*([A-Za-z])\.\s*([A-Za-z])` of
`process_entity` anchored at the head of `s`: returns the length of the
match when it succeeds.  Because `\s` and `[A-Za-z]` are disjoint, the
greedy `\s*` must consume exactly the maximal whitespace run, so no
backtracking arises and the match is this deterministic test. -/
def tryMatchLen (s : List Char) : Option Nat :=
  let w1 := (s.takeWhile isSpaceCh).length
  match s.drop w1 with
  | [] => none
  | c1 :: rest1 =>
    if c1.isAlpha then
      match rest1 with
      | [] => none
      | c2 :: rest2 =>
        if c2 = '.' then
          let w2 := (rest2.takeWhile isSpaceCh).length
          match rest2.drop w2 with
          | [] => none
          | c3 :: _ => if c3.isAlpha then some (w1 + 1 + 1 + w2 + 1) else none
        else none
    else none

/-- Scanning loop of `re.finditer` for the pattern of `process_entity`:
leftmost, non-overlapping matches; returns the list of match start
indices.  The fuel argument only bounds the recursion: every step consumes
at least one character, so fuel `s.length` never runs out. -/
def finditerGo : Nat → List Char → Nat → List Nat
  | 0, _, _ => []
  | _ + 1, [], _ => []
  | fuel + 1, c :: t, p =>
    match tryMatchLen (c :: t) with
    | some len => p :: finditerGo fuel ((c :: t).drop len) (p + len)
    | none => finditerGo fuel t (p + 1)

/-- Start indices of the matches of `\s*([A-Za-z])\.\s*([A-Za-z])` in `s`,
as computed by `[match.start() for match in re.finditer(pattern, s)]`. -/
def finditerStarts (s : List Char) : List Nat :=
  finditerGo s.length s 0

/-- Python slicing `s[a:b]` with integer bounds (negative bounds count
from the end; out-of-range bounds are clamped). -/
def pySliceI (s : List Char) (a b : Int) : List Char :=
  let n : Int := s.length
  let a2 : Nat := (if a < 0 then max 0 (n + a) else min a n).toNat
  let b2 : Nat := (if b < 0 then max 0 (n + b) else min b n).toNat
  (s.drop a2).take (b2 - a2)

/-- Embedding of `process_entity` (`scripts/spacy_extractor.py`, lines
116-130): find the pattern matches, shift each start by one, pad the
position list with `-1` and `len(entity)`, cut the entity at each pair of
consecutive positions with Python slicing, and rejoin with `". "`. -/
def process_entity (entity : List Char) : List Char :=
  let starts := finditerStarts entity
  let positions : List Int := starts.map (fun x => (x : Int) + 1)
  let positions : List Int := (-1) :: positions ++ [(entity.length : Int)]
  let pairs := positions.zip positions.tail
  let splitted := pairs.map (fun pq => pySliceI entity (pq.1 + 1) pq.2)
  List.intercalate ('.' :: ' ' :: []) splitted

/-- Result of running the pretrained spaCy pipeline on one text: the
entity spans (`doc.ents`), the noun chunks (`doc.noun_chunks`) and the
tokens with their fine-grained tags (`token.text` paired with
`token.tag_`).  The recognition engine is an external capability; its
output is this opaque data. -/
structure SpacyDoc where
  ents : List (List Char)
  noun_chunks : List (List Char)
  tokens : List (List Char × List Char)

/-- Helper of `pySplit`: accumulates the current word reversed. -/
def splitGo : List Char → List Char → List (List Char)
  | [], cur => if cur.isEmpty then [] else [cur.reverse]
  | c :: t, cur =>
    if isSpaceCh c then
      if cur.isEmpty then splitGo t [] else cur.reverse :: splitGo t []
    else splitGo t (c :: cur)

/-- Python `str.split()` with no argument: split on runs of whitespace,
discarding empty fragments. -/
def pySplit (s : List Char) : List (List Char) :=
  splitGo s []

/-- Tags recorded under the token text `w` by the `ent2tag` dictionary of
`extract_entities`: the `token.tag_` of every token whose text equals
`w`, in document order. -/
def tagsOf (tokens : List (List Char × List Char)) (w : List Char) : List (List Char) :=
  (tokens.filter (fun tk => tk.1 == w)).map Prod.snd

/-- Noun filter of `extract_entities` (`--nouns_only`): an entity is kept
iff some whitespace-separated token of it occurs in the document's token
list with at least one tag containing `"NN"` (tokens absent from the
dictionary are skipped by the `if token in ent2noun` guard, which the
empty tag list models). -/
def entHasNoun (tokens : List (List Char × List Char)) (entity : List Char) : Bool :=
  (pySplit entity).any (fun w => (tagsOf tokens w).any (fun t => strIn "NN".toList t))

/-- Offsets comprehension `[text.index(x) for x in entities]` of
`extract_entities`: left to right, the first mention that does not occur
in `text` raises `ValueError` (the error case). -/
def positionsOf (text : List Char) : List (List Char) → Except (List Char) (List Nat)
  | [] => .ok []
  | e :: rest =>
    match strIdx e text with
    | some i => (positionsOf text rest).map (fun ps => i :: ps)
    | none => .error "substring not found".toList

/-- Embedding of `extract_entities` (`scripts/spacy_extractor.py`, lines
13-63).  The pretrained pipeline output on `text` is the opaque `doc`;
`mode` is `args.type` and `filter_nouns` is `--nouns_only`.  A mode other
than `"entity"` and `"noun_phrase"` raises
`ValueError(f'Invalid entity type: {args.type}')`, before any filtering
or offset lookup; offsets are computed on the filtered entity list. -/
def extract_entities (doc : SpacyDoc) (text : List Char) (mode : List Char)
    (filter_nouns : Bool) : Except (List Char) (List (List Char) × List Nat) :=
  let pick : Except (List Char) (List (List Char)) :=
    if mode = "entity".toList then .ok doc.ents
    else if mode = "noun_phrase".toList then .ok doc.noun_chunks
    else .error ("Invalid entity type: ".toList ++ mode)
  match pick with
  | .error e => .error e
  | .ok entities =>
    let entities := if filter_nouns then entities.filter (entHasNoun doc.tokens) else entities
    (positionsOf text entities).map (fun ps => (entities, ps))

/-- Subsumption test of the final loop of `main`
(`scripts/spacy_extractor.py`, line 165):
`any([ent in x for x in signal if ent != x])` — is `ent` a substring of
some other mention of `signal`?  The comparison skips `ent` itself. -/
def subsumed (signal : List (List Char)) (ent : List Char) : Bool :=
  signal.any (fun x => (ent != x) && strIn ent x)

/-- Loop of the dedup pass of `main`; `acc` is `new_signal`. -/
def dedupGo (signal : List (List Char)) : List (List Char) → List (List Char) → List (List Char)
  | acc, [] => acc
  | acc, e :: rest =>
    if e ∈ acc then dedupGo signal acc rest
    else if subsumed signal e then dedupGo signal acc rest
    else dedupGo signal (acc ++ [e]) rest

/-- Dedup-and-unsubsume pass of `main` (`scripts/spacy_extractor.py`,
lines 162-166): keep a mention iff it was not kept already and it is not
a substring of a distinct mention of the (sorted) signal list. -/
def dedupPass (signal : List (List Char)) : List (List Char) :=
  dedupGo signal [] signal

/-- Stable insertion of a pair into a list ordered by second component:
the new pair goes before the first element whose offset is not strictly
smaller, so it never jumps over an element with an equal offset. -/
def insPos (p : List Char × Nat) : List (List Char × Nat) → List (List Char × Nat)
  | [] => [p]
  | q :: qs => if q.2 < p.2 then q :: insPos p qs else p :: q :: qs

/-- Model of `sorted(zip(signal, signal_pos), key=lambda x: x[1])`
(`scripts/spacy_extractor.py`, line 160).  Python's `sorted` is a stable
sort by the key, and the stably-sorted-by-key permutation of a list is
unique, so this stable insertion sort computes the same list. -/
def pySorted : List (List Char × Nat) → List (List Char × Nat)
  | [] => []
  | x :: xs => insPos x (pySorted xs)

/-- One iteration of the first double-check loop
(`scripts/spacy_extractor.py`, lines 151-154): a document mention not yet
in the signal whose lowercase form occurs in the lowercased summary text
is appended, with its offset recomputed by lowercase substring search in
the summary. -/
def dcStep1 (sumText : List Char) (st : List (List Char) × List Nat)
    (ep : List Char × Nat) : List (List Char) × List Nat :=
  if ep.1 ∉ st.1 ∧ strIn (lower ep.1) (lower sumText) then
    (st.1 ++ [ep.1], st.2 ++ [pyIndex (lower ep.1) (lower sumText)])
  else st

/-- First double-check loop, over the zipped document mentions. -/
def dcPass1 (sumText : List Char) (pairs : List (List Char × Nat))
    (st : List (List Char) × List Nat) : List (List Char) × List Nat :=
  pairs.foldl (dcStep1 sumText) st

/-- One iteration of the second double-check loop
(`scripts/spacy_extractor.py`, lines 155-158): a summary mention not yet
in the signal whose lowercase form occurs in the lowercased document text
is appended, keeping its original summary offset `_pos`. -/
def dcStep2 (docText : List Char) (st : List (List Char) × List Nat)
    (ep : List Char × Nat) : List (List Char) × List Nat :=
  if ep.1 ∉ st.1 ∧ strIn (lower ep.1) (lower docText) then
    (st.1 ++ [ep.1], st.2 ++ [ep.2])
  else st

/-- Second double-check loop, over the zipped summary mentions. -/
def dcPass2 (docText : List Char) (pairs : List (List Char × Nat))
    (st : List (List Char) × List Nat) : List (List Char) × List Nat :=
  pairs.foldl (dcStep2 docText) st

/-- Mentions the first double-check pass adds, stated from the spec's
words (for comparison with `dcPass1`): a document mention is added iff it
is not already in the signal and its lowercase form is a substring of the
lowercased summary text, and its recorded offset is the index of the
first occurrence of that lowercase form in the lowercased summary. -/
def dcAdded1 (sumText : List Char) (seen : List (List Char)) :
    List (List Char × Nat) → List (List Char × Nat)
  | [] => []
  | ep :: rest =>
    if ep.1 ∉ seen ∧ strIn (lower ep.1) (lower sumText) then
      (ep.1, pyIndex (lower ep.1) (lower sumText)) :: dcAdded1 sumText (seen ++ [ep.1]) rest
    else dcAdded1 sumText seen rest

/-- Mentions the second double-check pass adds, stated from the spec's
words (for comparison with `dcPass2`): a summary mention is added iff it
is not already in the signal and its lowercase form is a substring of the
lowercased document text; it keeps its original summary offset. -/
def dcAdded2 (docText : List Char) (seen : List (List Char)) :
    List (List Char × Nat) → List (List Char × Nat)
  | [] => []
  | ep :: rest =>
    if ep.1 ∉ seen ∧ strIn (lower ep.1) (lower docText) then
      (ep.1, ep.2) :: dcAdded2 docText (seen ++ [ep.1]) rest
    else dcAdded2 docText seen rest

/-- Command-line configuration of `scripts/spacy_extractor.py`: the flags
`--lower`, `--double_check`, `--nouns_only` and `--type`. -/
structure SpacyCfg where
  lower : Bool
  double_check : Bool
  nouns_only : Bool
  mode : List Char

/-- One input record: the `input_doc` and `summary` text fields. -/
structure RecordIn where
  input_doc : List Char
  summary : List Char

/-- One output record of either script. -/
structure RecordOut where
  doc_named_entities : List (List Char)
  summary_named_entities : List (List Char)
  signal : List (List Char)
deriving DecidableEq

/-- Per-record body of `main` (`scripts/spacy_extractor.py`, lines
136-172): extract mentions with offsets from both text fields,
post-process each mention, optionally lowercase, collect the summary
mentions attested in the document mention list, optionally run the two
double-check loops, sort the signal stably by offset, and run the dedup
pass. -/
def processRecord (engine : List Char → SpacyDoc) (cfg : SpacyCfg)
    (line : RecordIn) : Except (List Char) RecordOut :=
  match extract_entities (engine line.input_doc) line.input_doc cfg.mode cfg.nouns_only with
  | .error e => .error e
  | .ok (doc_ents0, doc_pos) =>
    match extract_entities (engine line.summary) line.summary cfg.mode cfg.nouns_only with
    | .error e => .error e
    | .ok (sum_ents0, sum_pos) =>
      let doc_ents := doc_ents0.map process_entity
      let sum_ents := sum_ents0.map process_entity
      let doc_ents := if cfg.lower then doc_ents.map lower else doc_ents
      let sum_ents := if cfg.lower then sum_ents.map lower else sum_ents
      let st := (sum_ents.zip sum_pos).foldl
        (fun st ep => if ep.1 ∈ doc_ents then (st.1 ++ [ep.1], st.2 ++ [ep.2]) else st)
        (([], []) : List (List Char) × List Nat)
      let st := if cfg.double_check then
          dcPass2 line.input_doc (sum_ents.zip sum_pos)
            (dcPass1 line.summary (doc_ents.zip doc_pos) st)
        else st
      let sortedSignal := (pySorted (st.1.zip st.2)).map Prod.fst
      .ok { doc_named_entities := doc_ents, summary_named_entities := sum_ents,
            signal := dedupPass sortedSignal }

/-- Batch loop of `main` (`scripts/spacy_extractor.py`): records are
processed strictly sequentially in input order, results accumulated in
order; a raised exception aborts the batch. -/
def spacyMain (engine : List Char → SpacyDoc) (cfg : SpacyCfg) :
    List RecordIn → Except (List Char) (List RecordOut)
  | [] => .ok []
  | r :: rest =>
    match processRecord engine cfg r with
    | .error e => .error e
    | .ok o => (spacyMain engine cfg rest).map (fun os => o :: os)

/-- First-occurrence representation of the Python `set` built from a
list: one copy of each element. -/
def setList : List (List Char) → List (List Char)
  | [] => []
  | x :: t => x :: (setList t).filter (fun y => y != x)

/-- Embedding of `list(set(doc_ents).intersection(set(summary_ents)))`
(`scripts/nltk_extractor.py`, line 101).  Python renders the intersection
set in an unspecified order; the model picks first-occurrence order, and
the claim about this value is stated up to the set view (membership). -/
def nltkSignal (doc_ents summary_ents : List (List Char)) : List (List Char) :=
  (setList doc_ents).filter (fun e => summary_ents.contains e)

/-- Per-record body of `main` (`scripts/nltk_extractor.py`, lines
98-106); the nltk tokenize-tag-chunk extraction chain is the opaque
`extract`. -/
def processRecordNltk (extract : List Char → List (List Char)) (line : RecordIn) : RecordOut :=
  { doc_named_entities := extract line.input_doc,
    summary_named_entities := extract line.summary,
    signal := nltkSignal (extract line.input_doc) (extract line.summary) }

/-- Batch loop of `main` (`scripts/nltk_extractor.py`): strictly
sequential traversal of the records in input order, with the signal
rendered in the fixed first-occurrence order of `nltkSignal`. -/
def nltkMain (extract : List Char → List (List Char)) (records : List RecordIn) : List RecordOut :=
  records.map (processRecordNltk extract)

/-- Possible outcomes of `list(set(d).intersection(set(s)))`: CPython set
iteration enumerates each element of the intersection exactly once, in an
order that depends on the per-process hash salt and is otherwise
unconstrained, so a run's signal list is any duplicate-free list whose
members are exactly the common mentions. -/
def IsSetIntersectionRendering (d s out : List (List Char)) : Prop :=
  out.Nodup ∧ (∀ a ∈ out, a ∈ d ∧ a ∈ s) ∧ ∀ a ∈ d, a ∈ s → a ∈ out

/-- The rendering predicate is decidable, so concrete renderings can be
checked by evaluation. -/
instance instDecidableIsSetIntersectionRendering (d s out : List (List Char)) :
    Decidable (IsSetIntersectionRendering d s out) := by
  unfold IsSetIntersectionRendering
  exact inferInstance

/-- Per-record output of `main` (`scripts/nltk_extractor.py`) in a run
whose set iteration renders this record's signal set as the list
`sig`. -/
def processRecordNltkOrd (extract : List Char → List (List Char))
    (sig : List (List Char)) (line : RecordIn) : RecordOut :=
  { doc_named_entities := extract line.input_doc,
    summary_named_entities := extract line.summary,
    signal := sig }

/-- Batch loop of `main` (`scripts/nltk_extractor.py`) with the
hash-salt-dependent rendering of each record's signal set made explicit:
one run of the script corresponds to one `choose` function satisfying
`IsSetIntersectionRendering` at every record, and two runs may get
different `choose` functions. -/
def nltkMainOrd (extract : List Char → List (List Char))
    (choose : RecordIn → List (List Char)) (records : List RecordIn) : List RecordOut :=
  records.map (fun r => processRecordNltkOrd extract (choose r) r)

/-- Embedding of `write_jsonl_file` (both scripts; the mode is its
default `a+`, which both call sites use).  The destination file is
modelled as `Option (List Char)`, `none` when absent, and `ser` stands
for `json.dumps`.  With `overwrite`, `os.remove` inside
`try ... except: pass` deletes the file when present and swallows the
error when the file is absent; opening with `a+` then creates the file or
appends to it, and each record is written as one line. -/
def write_jsonl_file {α : Type} (ser : α → List Char) (input_list : List α)
    (overwrite : Bool) (fs : Option (List Char)) : Option (List Char) :=
  let fs := if overwrite then none else fs
  some ((fs.getD []) ++ (input_list.map (fun r => ser r ++ ['\n'])).flatten)

/-! ## Theorems -/

/-- Helper for claim C2: a mention without any occurrence of the
abbreviation pattern is returned unchanged by `process_entity`. -/
theorem process_entity_of_no_match (x : List Char) (h : finditerStarts x = []) :
    process_entity x = x := by
  unfold process_entity
  rw [h]
  simp [pySliceI, List.intercalate]
  split <;> omega

/-- Claim C1 (corrected), counterexample: the repair function does not
map `"U. S. Government"` to `"U.S. Government"`. -/
theorem claim1_counterexample :
    process_entity "U. S. Government".toList ≠ "U.S. Government".toList := by
  decide

/-- Claim C1 (corrected, amended): the repair function maps the input
`"U. S. Government"` to `"U.  S. Government"` — the matched boundary is
re-split and rejoined with `". "`, which inserts a second space after the
first abbreviation period instead of collapsing the boundary. -/
theorem claim1_repair_us_government :
    process_entity "U. S. Government".toList = "U.  S. Government".toList := by
  decide

/-- Claim C2 (corrected), counterexample: the repair function is not
idempotent; on `"A.B"` one pass gives `"A. B"` and a second pass gives
`"A.  B"`. -/
theorem claim2_counterexample :
    ¬ (process_entity (process_entity "A.B".toList) = process_entity "A.B".toList) := by
  decide

/-- Claim C2 (corrected, amended): the repair function is idempotent on
every mention string in which the abbreviation pattern does not occur:
on such a string one pass is already the identity, so a second pass is a
no-op.  On strings containing the pattern it is not idempotent in
general, see the counterexample. -/
theorem claim2_repair_idempotent_no_pattern (x : List Char)
    (h : finditerStarts x = []) :
    process_entity (process_entity x) = process_entity x := by
  rw [process_entity_of_no_match x h, process_entity_of_no_match x h]

/-- Witness for claim C2's amended theorem at the concrete mention
`"John Smith"`. -/
theorem claim2_witness :
    finditerStarts "John Smith".toList = [] ∧
      process_entity (process_entity "John Smith".toList) =
        process_entity "John Smith".toList :=
  ⟨by decide, claim2_repair_idempotent_no_pattern "John Smith".toList (by decide)⟩

/-- Membership in the dedup pass implies the mention survived the
subsumption check against every other mention of the input list. -/
theorem dedupGo_mem (signal : List (List Char)) (rest : List (List Char)) :
    ∀ (acc : List (List Char)) (a : List Char),
      a ∈ dedupGo signal acc rest →
      a ∈ acc ∨ (a ∈ rest ∧ subsumed signal a = false) := by
  induction rest with
  | nil => intro acc a h; exact Or.inl h
  | cons e rest ih =>
    intro acc a h
    unfold dedupGo at h
    by_cases h1 : e ∈ acc
    · rw [if_pos h1] at h
      rcases ih acc a h with h2 | ⟨h2, h3⟩
      · exact Or.inl h2
      · exact Or.inr ⟨List.mem_cons_of_mem _ h2, h3⟩
    · rw [if_neg h1] at h
      by_cases h2 : subsumed signal e = true
      · simp only [h2, if_true] at h
        rcases ih acc a h with h3 | ⟨h3, h4⟩
        · exact Or.inl h3
        · exact Or.inr ⟨List.mem_cons_of_mem _ h3, h4⟩
      · have h2b : subsumed signal e = false := by
          cases hx : subsumed signal e
          · rfl
          · exact absurd hx h2
        simp only [h2b, Bool.false_eq_true, if_false] at h
        rcases ih (acc ++ [e]) a h with h3 | ⟨h3, h4⟩
        · rcases List.mem_append.mp h3 with h4 | h4
          · exact Or.inl h4
          · rcases List.mem_singleton.mp h4 with rfl
            exact Or.inr ⟨List.mem_cons_self _ _, h2b⟩
        · exact Or.inr ⟨List.mem_cons_of_mem _ h3, h4⟩

/-- Every retained mention comes from the input signal list and is not a
substring of any other mention of it. -/
theorem mem_of_mem_dedupPass (signal : List (List Char)) (a : List Char)
    (h : a ∈ dedupPass signal) : a ∈ signal ∧ subsumed signal a = false := by
  rcases dedupGo_mem signal signal [] a h with h2 | h2
  · cases h2
  · exact h2

/-- Claim C3 (confirmed): under the position-aware policy no two distinct
retained signal mentions are in the substring relation, in either
direction; and the subsumption check compares a mention only against
other mentions, so a mention matching itself is never subsuming. -/
theorem claim3_no_subsumption (signal : List (List Char)) (a b : List Char)
    (ha : a ∈ dedupPass signal) (hb : b ∈ dedupPass signal) (hne : a ≠ b) :
    strIn a b = false ∧ strIn b a = false ∧ ∀ e : List Char, subsumed [e] e = false := by
  obtain ⟨haS, haF⟩ := mem_of_mem_dedupPass signal a ha
  obtain ⟨hbS, hbF⟩ := mem_of_mem_dedupPass signal b hb
  simp only [subsumed, List.any_eq_false, Bool.and_eq_true, bne_iff_ne, ne_eq, not_and] at haF hbF
  refine ⟨?_, ?_, ?_⟩
  · have := haF b hbS hne
    cases hx : strIn a b
    · rfl
    · exact absurd hx this
  · have := hbF a haS (Ne.symm hne)
    cases hx : strIn b a
    · rfl
    · exact absurd hx this
  · intro e
    simp [subsumed]

/-- Witness for claim C3 on the concrete signal list `["ab", "cd"]`, both
of whose elements are retained. -/
theorem claim3_witness :
    strIn "ab".toList "cd".toList = false ∧ strIn "cd".toList "ab".toList = false ∧
      ∀ e : List Char, subsumed [e] e = false :=
  claim3_no_subsumption ["ab".toList, "cd".toList] "ab".toList "cd".toList
    (by decide) (by decide) (by decide)

/-- Membership in a stable insertion. -/
theorem mem_insPos (p q : List Char × Nat) (l : List (List Char × Nat)) :
    q ∈ insPos p l ↔ q = p ∨ q ∈ l := by
  induction l with
  | nil => simp [insPos]
  | cons b bs ih =>
    unfold insPos
    by_cases h : b.2 < p.2
    · rw [if_pos h]
      simp only [List.mem_cons, ih]
      tauto
    · rw [if_neg h]
      simp [List.mem_cons]

/-- Stable insertion preserves ordering by offset. -/
theorem pairwise_insPos (p : List Char × Nat) (l : List (List Char × Nat))
    (h : l.Pairwise (fun a b => a.2 ≤ b.2)) :
    (insPos p l).Pairwise (fun a b => a.2 ≤ b.2) := by
  induction l with
  | nil => simp [insPos]
  | cons b bs ih =>
    rcases List.pairwise_cons.mp h with ⟨hb, hbs⟩
    unfold insPos
    by_cases hlt : b.2 < p.2
    · rw [if_pos hlt]
      refine List.pairwise_cons.mpr ⟨?_, ih hbs⟩
      intro q hq
      rcases (mem_insPos p q bs).mp hq with rfl | hq2
      · exact Nat.le_of_lt hlt
      · exact hb q hq2
    · rw [if_neg hlt]
      have hpb : p.2 ≤ b.2 := Nat.le_of_not_lt hlt
      refine List.pairwise_cons.mpr ⟨?_, h⟩
      intro q hq
      rcases List.mem_cons.mp hq with rfl | hq2
      · exact hpb
      · exact le_trans hpb (hb q hq2)

/-- The model of Python's `sorted` produces offsets in non-decreasing
order. -/
theorem pairwise_pySorted (l : List (List Char × Nat)) :
    (pySorted l).Pairwise (fun a b => a.2 ≤ b.2) := by
  induction l with
  | nil => simp [pySorted]
  | cons x xs ih => exact pairwise_insPos x (pySorted xs) ih

/-- Filtering one offset class through a stable insertion. -/
theorem filter_insPos (p : List Char × Nat) (k : Nat) (l : List (List Char × Nat)) :
    (insPos p l).filter (fun q => q.2 == k) =
      if p.2 = k then p :: l.filter (fun q => q.2 == k)
      else l.filter (fun q => q.2 == k) := by
  induction l with
  | nil => by_cases hk : p.2 = k <;> simp [insPos, List.filter_cons, hk]
  | cons b bs ih =>
    unfold insPos
    by_cases hlt : b.2 < p.2
    · rw [if_pos hlt]
      by_cases hk : p.2 = k
      · have hbk : ¬ (b.2 = k) := by omega
        simp [List.filter_cons, hbk, ih, hk]
      · simp [List.filter_cons, ih, hk]
    · rw [if_neg hlt]
      by_cases hk : p.2 = k <;> simp [List.filter_cons, hk]

/-- Stability of the sort: within one offset class the sorted list keeps
exactly the original insertion order. -/
theorem filter_pySorted (k : Nat) (l : List (List Char × Nat)) :
    (pySorted l).filter (fun q => q.2 == k) = l.filter (fun q => q.2 == k) := by
  induction l with
  | nil => rfl
  | cons x xs ih =>
    rw [pySorted, filter_insPos, List.filter_cons]
    by_cases hk : x.2 = k <;> simp [hk, ih]

/-- The dedup loop only ever appends elements it is traversing, in
traversal order. -/
theorem dedupGo_sublist (signal : List (List Char)) (rest : List (List Char)) :
    ∀ acc, (dedupGo signal acc rest).Sublist (acc ++ rest) := by
  induction rest with
  | nil => intro acc; simp [dedupGo]
  | cons e rest ih =>
    intro acc
    unfold dedupGo
    by_cases h1 : e ∈ acc
    · rw [if_pos h1]
      refine (ih acc).trans (List.Sublist.append_left ?_ acc)
      exact List.sublist_cons_self e rest
    · rw [if_neg h1]
      by_cases h2 : subsumed signal e = true
      · simp only [h2, if_true]
        refine (ih acc).trans (List.Sublist.append_left ?_ acc)
        exact List.sublist_cons_self e rest
      · have h2b : subsumed signal e = false := by
          cases hx : subsumed signal e
          · rfl
          · exact absurd hx h2
        simp only [h2b, Bool.false_eq_true, if_false]
        have := ih (acc ++ [e])
        rwa [List.append_assoc, List.singleton_append] at this

/-- The dedup pass is order-preserving: its output is a sublist of its
input. -/
theorem dedupPass_sublist (m : List (List Char)) : (dedupPass m).Sublist m := by
  simpa using dedupGo_sublist m m []

/-- Claim C4 (confirmed): the sorted signal pairs have non-decreasing
offsets; the sort is stable (each offset class keeps its relative
insertion order); the subsumption-dedup pass preserves order (its output
is a sublist of its input), in particular on the mention projection of
the sorted signal. -/
theorem claim4_order_and_stability (l : List (List Char × Nat)) (m : List (List Char)) (k : Nat) :
    (pySorted l).Pairwise (fun a b => a.2 ≤ b.2) ∧
      (pySorted l).filter (fun q => q.2 == k) = l.filter (fun q => q.2 == k) ∧
      (dedupPass m).Sublist m ∧
      (dedupPass ((pySorted l).map Prod.fst)).Sublist ((pySorted l).map Prod.fst) :=
  ⟨pairwise_pySorted l, filter_pySorted k l, dedupPass_sublist m,
    dedupPass_sublist ((pySorted l).map Prod.fst)⟩

/-- The first double-check loop of the code computes exactly the additions
described by the spec's words. -/
theorem dcPass1_eq_spec (sumText : List Char) (pairs : List (List Char × Nat)) :
    ∀ (sig : List (List Char)) (pos : List Nat),
      dcPass1 sumText pairs (sig, pos) =
        (sig ++ (dcAdded1 sumText sig pairs).map Prod.fst,
         pos ++ (dcAdded1 sumText sig pairs).map Prod.snd) := by
  induction pairs with
  | nil => intro sig pos; simp [dcPass1, dcAdded1]
  | cons ep rest ih =>
    intro sig pos
    simp only [dcPass1, List.foldl_cons] at ih ⊢
    by_cases hc : ep.1 ∉ sig ∧ strIn (lower ep.1) (lower sumText)
    · rw [dcStep1, if_pos hc, dcAdded1, if_pos hc, ih]
      simp
    · rw [dcStep1, if_neg hc, dcAdded1, if_neg hc]
      exact ih sig pos

/-- The second double-check loop of the code computes exactly the
additions described by the spec's words. -/
theorem dcPass2_eq_spec (docText : List Char) (pairs : List (List Char × Nat)) :
    ∀ (sig : List (List Char)) (pos : List Nat),
      dcPass2 docText pairs (sig, pos) =
        (sig ++ (dcAdded2 docText sig pairs).map Prod.fst,
         pos ++ (dcAdded2 docText sig pairs).map Prod.snd) := by
  induction pairs with
  | nil => intro sig pos; simp [dcPass2, dcAdded2]
  | cons ep rest ih =>
    intro sig pos
    simp only [dcPass2, List.foldl_cons] at ih ⊢
    by_cases hc : ep.1 ∉ sig ∧ strIn (lower ep.1) (lower docText)
    · rw [dcStep2, if_pos hc, dcAdded2, if_pos hc, ih]
      simp
    · rw [dcStep2, if_neg hc, dcAdded2, if_neg hc]
      exact ih sig pos

/-- Claim C5 (confirmed): with double-check enabled, the first pass adds a
document mention exactly when it is not already in the signal and its
lowercase form is a substring of the lowercased summary text, with offset
the first-occurrence index of that lowercase form in the lowercased
summary (`dcAdded1` is that description verbatim); the second pass adds a
summary mention exactly when it is not already in the signal and its
lowercase form is a substring of the lowercased document text, keeping
its original summary offset (`dcAdded2` is that description verbatim). -/
theorem claim5_double_check (sumText docText : List Char)
    (docPairs sumPairs : List (List Char × Nat))
    (sig : List (List Char)) (pos : List Nat) :
    dcPass1 sumText docPairs (sig, pos) =
      (sig ++ (dcAdded1 sumText sig docPairs).map Prod.fst,
       pos ++ (dcAdded1 sumText sig docPairs).map Prod.snd) ∧
    dcPass2 docText sumPairs (sig, pos) =
      (sig ++ (dcAdded2 docText sig sumPairs).map Prod.fst,
       pos ++ (dcAdded2 docText sig sumPairs).map Prod.snd) :=
  ⟨dcPass1_eq_spec sumText docPairs sig pos, dcPass2_eq_spec docText sumPairs sig pos⟩

/-- Membership is preserved by the set representation. -/
theorem mem_setList (l : List (List Char)) (a : List Char) :
    a ∈ setList l ↔ a ∈ l := by
  induction l with
  | nil => simp [setList]
  | cons x t ih =>
    simp only [setList, List.mem_cons, List.mem_filter, ih, bne_iff_ne, ne_eq]
    constructor
    · rintro (rfl | ⟨h1, h2⟩)
      · exact Or.inl rfl
      · exact Or.inr h1
    · rintro (rfl | h1)
      · exact Or.inl rfl
      · by_cases hx : a = x
        · exact Or.inl hx
        · exact Or.inr ⟨h1, hx⟩

/-- Membership characterization of the modelled intersection list. -/
theorem mem_nltkSignal (d s : List (List Char)) (a : List Char) :
    a ∈ nltkSignal d s ↔ a ∈ d ∧ a ∈ s := by
  simp [nltkSignal, List.mem_filter, mem_setList, List.elem_iff]

/-- Claim C6 (confirmed): under the set-intersection policy, a mention is
in the produced signal iff it is both a document mention and a summary
mention — the signal, viewed as a set, is the intersection of the two
mention sets. -/
theorem claim6_set_intersection (d s : List (List Char)) (a : List Char) :
    a ∈ nltkSignal d s ↔ a ∈ d ∧ a ∈ s :=
  mem_nltkSignal d s a

/-- The set representation holds no duplicates. -/
theorem setList_nodup (l : List (List Char)) : (setList l).Nodup := by
  induction l with
  | nil => simp [setList]
  | cons x t ih =>
    rw [setList]
    refine List.nodup_cons.mpr ⟨?_, ih.filter _⟩
    intro hx
    have hm := List.mem_filter.mp hx
    simp at hm

/-- The fixed first-occurrence order of `nltkSignal` is one valid
rendering of the Python intersection set — one possible run among the
hash-salt-dependent ones. -/
theorem nltkSignal_isRendering (d s : List (List Char)) :
    IsSetIntersectionRendering d s (nltkSignal d s) := by
  refine ⟨(setList_nodup d).filter _, ?_, ?_⟩
  · intro a ha
    exact (mem_nltkSignal d s a).mp ha
  · intro a hd hs
    exact (mem_nltkSignal d s a).mpr ⟨hd, hs⟩

/-- Two nltk runs over the same records with the same extraction results
agree record by record on the mention lists, and on the signal as a set,
whatever valid set renderings the two runs' hash salts produce. -/
theorem nltkMainOrd_upToSet (extract : List Char → List (List Char))
    (ch1 ch2 : RecordIn → List (List Char)) :
    ∀ recs : List RecordIn,
      (∀ r ∈ recs,
        IsSetIntersectionRendering (extract r.input_doc) (extract r.summary) (ch1 r)) →
      (∀ r ∈ recs,
        IsSetIntersectionRendering (extract r.input_doc) (extract r.summary) (ch2 r)) →
      List.Forall₂
        (fun o1 o2 =>
          o1.doc_named_entities = o2.doc_named_entities ∧
            o1.summary_named_entities = o2.summary_named_entities ∧
            ∀ a, a ∈ o1.signal ↔ a ∈ o2.signal)
        (nltkMainOrd extract ch1 recs) (nltkMainOrd extract ch2 recs) := by
  intro recs
  induction recs with
  | nil => intro h1 h2; exact List.Forall₂.nil
  | cons r rest ih =>
    intro h1 h2
    refine List.Forall₂.cons ⟨rfl, rfl, ?_⟩
      (ih (fun q hq => h1 q (List.mem_cons_of_mem _ hq))
        (fun q hq => h2 q (List.mem_cons_of_mem _ hq)))
    intro a
    obtain ⟨-, g2, g3⟩ := h1 r (List.mem_cons_self r rest)
    obtain ⟨-, k2, k3⟩ := h2 r (List.mem_cons_self r rest)
    constructor
    · intro ha
      obtain ⟨hd, hs⟩ := g2 a ha
      exact k3 a hd hs
    · intro ha
      obtain ⟨hd, hs⟩ := k2 a ha
      exact g3 a hd hs

/-- Claim C7 (corrected), counterexample: with the same extraction
results on the same record, two valid renderings of the same signal set
(`["x", "y"]` and `["y", "x"]` — set iteration order is hash-salt
dependent across runs) yield output record lists that differ in the
element order of a signal list, so identical element order in every
output list is not guaranteed. -/
theorem claim7_counterexample :
    IsSetIntersectionRendering ["x".toList, "y".toList] ["x".toList, "y".toList]
        ["x".toList, "y".toList] ∧
      IsSetIntersectionRendering ["x".toList, "y".toList] ["x".toList, "y".toList]
        ["y".toList, "x".toList] ∧
      nltkMainOrd (fun _ => ["x".toList, "y".toList]) (fun _ => ["x".toList, "y".toList])
          [⟨"a doc".toList, "a summary".toList⟩] ≠
        nltkMainOrd (fun _ => ["x".toList, "y".toList]) (fun _ => ["y".toList, "x".toList])
          [⟨"a doc".toList, "a summary".toList⟩] := by
  refine ⟨by decide, by decide, by decide⟩

/-- Claim C7 (corrected, amended): two runs over the same input records
with the same configuration and the same extraction results produce
identical output record lists from the spacy script, element order
included; for the nltk script the two runs produce, record by record,
identical document and summary mention lists, and signal lists equal as
sets (same members), though possibly in different order, since the
signal's order comes from iterating a Python set whose order is hash-salt
dependent. -/
theorem claim7_determinism_up_to_set_order
    (e1 e2 : List Char → SpacyDoc) (c1 c2 : SpacyCfg) (r1 r2 : List RecordIn)
    (x1 x2 : List Char → List (List Char)) (s1 s2 : List RecordIn)
    (ch1 ch2 : RecordIn → List (List Char))
    (he : e1 = e2) (hc : c1 = c2) (hr : r1 = r2) (hx : x1 = x2) (hs : s1 = s2)
    (hch1 : ∀ r ∈ s1,
      IsSetIntersectionRendering (x1 r.input_doc) (x1 r.summary) (ch1 r))
    (hch2 : ∀ r ∈ s2,
      IsSetIntersectionRendering (x2 r.input_doc) (x2 r.summary) (ch2 r)) :
    spacyMain e1 c1 r1 = spacyMain e2 c2 r2 ∧
      List.Forall₂
        (fun o1 o2 =>
          o1.doc_named_entities = o2.doc_named_entities ∧
            o1.summary_named_entities = o2.summary_named_entities ∧
            ∀ a, a ∈ o1.signal ↔ a ∈ o2.signal)
        (nltkMainOrd x1 ch1 s1) (nltkMainOrd x2 ch2 s2) := by
  subst he hc hr hx hs
  exact ⟨rfl, nltkMainOrd_upToSet x1 ch1 ch2 s1 hch1 hch2⟩

/-- Witness for claim C7's amended theorem: a concrete engine,
configuration and record list, with two concrete distinct valid
renderings of the signal set. -/
theorem claim7_up_to_set_order_witness :
    spacyMain (fun _ => ⟨[], [], []⟩) ⟨false, false, false, "entity".toList⟩
        [⟨"a doc".toList, "a summary".toList⟩] =
      spacyMain (fun _ => ⟨[], [], []⟩) ⟨false, false, false, "entity".toList⟩
        [⟨"a doc".toList, "a summary".toList⟩] ∧
      List.Forall₂
        (fun o1 o2 =>
          o1.doc_named_entities = o2.doc_named_entities ∧
            o1.summary_named_entities = o2.summary_named_entities ∧
            ∀ a, a ∈ o1.signal ↔ a ∈ o2.signal)
        (nltkMainOrd (fun _ => ["x".toList, "y".toList])
          (fun _ => ["x".toList, "y".toList]) [⟨"a doc".toList, "a summary".toList⟩])
        (nltkMainOrd (fun _ => ["x".toList, "y".toList])
          (fun _ => ["y".toList, "x".toList]) [⟨"a doc".toList, "a summary".toList⟩]) :=
  claim7_determinism_up_to_set_order _ _ _ _ _ _ _ _ _ _ _ _
    rfl rfl rfl rfl rfl (by decide) (by decide)

/-- Claim C8 (confirmed): for every text input, extraction with a mode
other than `"entity"` and `"noun_phrase"` fails with the
`Invalid entity type` error — raised on first use, before any filtering
or offset computation — and returns no mentions. -/
theorem claim8_invalid_mode (doc : SpacyDoc) (text mode : List Char) (fn : Bool)
    (h1 : mode ≠ "entity".toList) (h2 : mode ≠ "noun_phrase".toList) :
    extract_entities doc text mode fn = .error ("Invalid entity type: ".toList ++ mode) := by
  unfold extract_entities
  rw [if_neg h1, if_neg h2]

/-- Witness for claim C8 at the concrete invalid mode `"chunk"`. -/
theorem claim8_witness :
    extract_entities ⟨[], [], []⟩ "some text".toList "chunk".toList false =
      .error ("Invalid entity type: ".toList ++ "chunk".toList) :=
  claim8_invalid_mode ⟨[], [], []⟩ "some text".toList "chunk".toList false
    (by decide) (by decide)

/-- Claim C9 (confirmed): writing with `overwrite` removes any
pre-existing file first (an absent file is not an error: the write is
total also from the `none` state), and the resulting file holds exactly
this run's records, one serialized line each, whatever the previous file
state was. -/
theorem claim9_truncate_write {α : Type} (ser : α → List Char) (records : List α)
    (fs fs2 : Option (List Char)) :
    write_jsonl_file ser records true fs =
        some ((records.map (fun r => ser r ++ ['\n'])).flatten) ∧
      write_jsonl_file ser records true fs = write_jsonl_file ser records true fs2 ∧
      write_jsonl_file ser records true none =
        some ((records.map (fun r => ser r ++ ['\n'])).flatten) :=
  ⟨rfl, rfl, rfl⟩

/-- Correctness of the substring-search model: a returned index is the
first occurrence. -/
theorem strIdx_first (needle : List Char) :
    ∀ (hay : List Char) (k : Nat), strIdx needle hay = some k →
      needle.isPrefixOf (hay.drop k) = true ∧
        ∀ j < k, needle.isPrefixOf (hay.drop j) = false := by
  intro hay
  induction hay with
  | nil =>
    intro k h
    rw [strIdx] at h
    split at h
    · cases h
      refine ⟨by assumption, ?_⟩
      intro j hj
      omega
    · cases h
  | cons c t ih =>
    intro k h
    rw [strIdx] at h
    split at h
    · cases h
      refine ⟨by assumption, ?_⟩
      intro j hj
      omega
    · cases hm : strIdx needle t with
      | none => rw [hm] at h; cases h
      | some m =>
        rw [hm] at h
        simp only [Option.map_some'] at h
        cases h
        obtain ⟨g1, g2⟩ := ih m hm
        refine ⟨by simpa using g1, ?_⟩
        intro j hj
        cases j with
        | zero =>
          simp only [List.drop_zero]
          rename_i hp
          cases hx : needle.isPrefixOf (c :: t)
          · rfl
          · exact absurd hx hp
        | succ n =>
          simpa using g2 n (by omega)

/-- Inversion for a successful `Except.map`. -/
theorem except_map_ok {ε α β : Type} (g : α → β) (ex : Except ε α) (y : β)
    (h : ex.map g = .ok y) : ∃ x, ex = .ok x ∧ y = g x := by
  cases ex with
  | error e => simp [Except.map] at h
  | ok a =>
    simp only [Except.map, Except.ok.injEq] at h
    exact ⟨a, rfl, h.symm⟩

/-- When the offsets comprehension succeeds, it returns one offset per
mention, each the result of the substring search for that mention. -/
theorem positionsOf_ok (text : List Char) :
    ∀ (es : List (List Char)) (ps : List Nat),
      positionsOf text es = .ok ps →
      ps.length = es.length ∧
        ∀ i (hi : i < es.length) (hp : i < ps.length),
          strIdx (es.get ⟨i, hi⟩) text = some (ps.get ⟨i, hp⟩) := by
  intro es
  induction es with
  | nil =>
    intro ps h
    simp only [positionsOf, Except.ok.injEq] at h
    subst h
    exact ⟨rfl, fun i hi hp => absurd hi (by simp)⟩
  | cons e rest ih =>
    intro ps h
    rw [positionsOf] at h
    cases hx : strIdx e text with
    | none => rw [hx] at h; cases h
    | some i =>
      rw [hx] at h
      obtain ⟨qs, hqs, hy⟩ := except_map_ok _ _ _ h
      subst hy
      obtain ⟨hl, hidx⟩ := ih qs hqs
      refine ⟨by simp [hl], ?_⟩
      intro n hn hp
      cases n with
      | zero => simpa using hx
      | succ n2 =>
        exact hidx n2 (by simpa using hn) (by simpa using hp)

/-- A successful extraction's offsets are those of the offsets
comprehension over the returned mention list. -/
theorem extract_ok_positions (doc : SpacyDoc) (text mode : List Char) (fn : Bool)
    (ents : List (List Char)) (poss : List Nat)
    (h : extract_entities doc text mode fn = .ok (ents, poss)) :
    positionsOf text ents = .ok poss := by
  unfold extract_entities at h
  by_cases h1 : mode = "entity".toList
  · rw [if_pos h1] at h
    obtain ⟨x, hx, hy⟩ := except_map_ok _ _ _ h
    injection hy with hy1 hy2
    subst hy1
    subst hy2
    exact hx
  · rw [if_neg h1] at h
    by_cases h2 : mode = "noun_phrase".toList
    · rw [if_pos h2] at h
      obtain ⟨x, hx, hy⟩ := except_map_ok _ _ _ h
      injection hy with hy1 hy2
      subst hy1
      subst hy2
      exact hx
    · rw [if_neg h2] at h
      cases h

/-- Claim C10 (confirmed): when extraction succeeds, every mention gets
exactly one offset; the offset of each mention is the index of the first
occurrence of the mention string in the source text (the mention is a
prefix of the text dropped at the offset and at no earlier index); hence
two equal mentions extracted from different places get the same offset;
and success requires every mention to occur verbatim in the text. -/
theorem claim10_offset_first_occurrence (doc : SpacyDoc) (text mode : List Char)
    (fn : Bool) (ents : List (List Char)) (poss : List Nat)
    (h : extract_entities doc text mode fn = .ok (ents, poss)) :
    poss.length = ents.length ∧
      (∀ i (hi : i < ents.length) (hp : i < poss.length),
        strIdx (ents.get ⟨i, hi⟩) text = some (poss.get ⟨i, hp⟩)) ∧
      (∀ i (hi : i < ents.length) (hp : i < poss.length),
        (ents.get ⟨i, hi⟩).isPrefixOf (text.drop (poss.get ⟨i, hp⟩)) = true ∧
          ∀ j < poss.get ⟨i, hp⟩, (ents.get ⟨i, hi⟩).isPrefixOf (text.drop j) = false) ∧
      (∀ i j (hi : i < ents.length) (hj : j < ents.length)
          (hpi : i < poss.length) (hpj : j < poss.length),
        ents.get ⟨i, hi⟩ = ents.get ⟨j, hj⟩ →
          poss.get ⟨i, hpi⟩ = poss.get ⟨j, hpj⟩) := by
  have hpos := extract_ok_positions doc text mode fn ents poss h
  obtain ⟨hl, hidx⟩ := positionsOf_ok text ents poss hpos
  refine ⟨hl, hidx, ?_, ?_⟩
  · intro i hi hp
    exact strIdx_first _ text _ (hidx i hi hp)
  · intro i j hi hj hpi hpj hee
    have g1 := hidx i hi hpi
    have g2 := hidx j hj hpj
    rw [hee] at g1
    rw [g1] at g2
    exact Option.some.inj g2

/-- Witness for claim C10: the engine reports mention `"b"` on the text
`"ab"`, and extraction records offset 1, its first occurrence. -/
theorem claim10_witness :
    strIdx "b".toList "ab".toList = some 1 :=
  (claim10_offset_first_occurrence ⟨["b".toList], [], []⟩ "ab".toList "entity".toList
    false ["b".toList] [1] rfl).2.1 0 (by decide) (by decide)

end SignalExtraction
